import Mathlib

/-!
Verification of the image-vectorization backend (`backend/main.py`).

The repository exposes one request handler, `vectorize`, which decodes an
uploaded raster with OpenCV, flattens a possible alpha channel, binarizes the
grayscale image under one of three strategies, normalizes polarity (foreground
black), hands the binary PNG to the external `vtracer` library, and rewrites
the returned SVG root tag to be responsive.

The embedding below models the handler's own logic concretely (per-pixel
thresholding rules, pixel counting, the regular-expression text surgery on the
SVG, and the control flow of the handler), while the external collaborators
(OpenCV's decoder, grayscale conversion, Otsu threshold selection, median
blur, the Gaussian local mean of `adaptiveThreshold`, PNG encoding, and the
`vtracer` conversion including its temp-file indirection) are oracle
parameters gathered in the structures `Cv` and `Tracer`.

Images are single-channel rasters `List Nat` (uint8 values) for the grayscale
pipeline, and `RawImage` (a pixel grid with explicit width/height/channels)
for the decoded color image.  Strings are handled as `List Char`.
-/

set_option maxRecDepth 16384

namespace Linolium

/-- Decoded pixel grid: `pixels` lists each pixel's channel values
(`img.shape[0]` = height, `img.shape[1]` = width, `img.shape[2]` = channels). -/
structure RawImage where
  height : Nat
  width : Nat
  channels : Nat
  pixels : List (List Nat)
deriving DecidableEq

/-- `cv2.bitwise_not` on a uint8 value: bitwise complement, i.e. `255 - v`
for in-range values. -/
def bitwise_not (v : Nat) : Nat := 255 - v % 256

/-- `np.sum(processed == 0)` — the handler's black-pixel count. -/
def blackCount (img : List Nat) : Nat := img.countP (fun v => v == 0)

/-- `np.sum(processed == 255)` — the handler's white-pixel count. -/
def whiteCount (img : List Nat) : Nat := img.countP (fun v => v == 255)

/-- Lines 82–86 of `main.py`: count black and white pixels and invert with
`cv2.bitwise_not` when `black_pixels > white_pixels * 2`. -/
def normalizePolarity (img : List Nat) : List Nat :=
  if blackCount img > whiteCount img * 2 then img.map bitwise_not else img

/-- Restatement of the polarity rule in the spec's own words (§4.2): count
black (0) and white (255) pixels and, if black count > 2 × white count,
invert all pixel values.  Used to compare the handler against the spec. -/
def normalizePolaritySpec (img : List Nat) : List Nat :=
  if img.countP (fun v => v == 0) > 2 * img.countP (fun v => v == 255) then
    img.map (fun v => 255 - v)
  else img

/-- External OpenCV operations the handler calls, as oracle parameters.
`imdecodeColor` is `cv2.imdecode(·, cv2.IMREAD_COLOR)` (`None` ↦ `none`);
`bgr2gray` is `cv2.cvtColor(·, cv2.COLOR_BGR2GRAY)`; `otsuValue` is the
threshold selected by `cv2.threshold(..., THRESH_OTSU)`; `medianBlur3` is
`cv2.medianBlur(·, 3)`; `adaptiveMean g i` is the Gaussian-weighted local
mean (11×11 block) that `cv2.adaptiveThreshold` computes at pixel `i`;
`imencodePng` is `cv2.imencode(".png", ·)` with `none` for a false
`is_success` flag. -/
structure Cv where
  imdecodeColor : List Nat → Option RawImage
  bgr2gray : RawImage → List Nat
  otsuValue : List Nat → Int
  medianBlur3 : List Nat → List Nat
  adaptiveMean : List Nat → Nat → Int
  imencodePng : List Nat → Option (List Nat)

/-- `cv2.threshold(g, t, 255, cv2.THRESH_BINARY)`: each pixel becomes 255 if
strictly above the threshold, else 0. -/
def threshBinary (t : Int) (g : List Nat) : List Nat :=
  g.map (fun v => if (v : Int) > t then 255 else 0)

/-- `otsu_threshold` from `main.py`: `cv2.threshold` with
`THRESH_BINARY + THRESH_OTSU` — an automatically selected global threshold
followed by the same binary rule. -/
def otsu_threshold (O : Cv) (gray : List Nat) : List Nat :=
  threshBinary (O.otsuValue gray) gray

/-- `apply_median_filter` from `main.py`: `cv2.medianBlur(gray, 3)`. -/
def apply_median_filter (O : Cv) (gray : List Nat) : List Nat :=
  O.medianBlur3 gray

/-- `apply_adaptive_threshold` from `main.py`:
`cv2.adaptiveThreshold(gray, 255, ADAPTIVE_THRESH_GAUSSIAN_C, THRESH_BINARY,
11, 2)` — pixel `i` becomes 255 when strictly above the Gaussian local mean
minus the constant `C = 2`, else 0. -/
def apply_adaptive_threshold (O : Cv) (gray : List Nat) : List Nat :=
  (List.range gray.length).map (fun i =>
    if (gray.getD i 0 : Int) > O.adaptiveMean gray i - 2 then 255 else 0)

/-- Lines 70–80 of `main.py`: the algorithm-selection block of the handler.
`"adaptive"` goes to the adaptive threshold; otherwise `"median-otsu"` first
median-filters the grayscale image, and then either a manual hard threshold
or Otsu's automatic threshold is applied. -/
def binarize (O : Cv) (algorithm : String) (manualThreshold : Bool)
    (threshold : Int) (gray : List Nat) : List Nat :=
  if algorithm = "adaptive" then
    apply_adaptive_threshold O gray
  else
    let gray2 := if algorithm = "median-otsu" then apply_median_filter O gray else gray
    if manualThreshold then threshBinary threshold gray2
    else otsu_threshold O gray2

/-- Lines 61–65 of `main.py` (the body of the `img.shape[2] == 4` branch):
pixels whose alpha channel (index 3) is `< 128` are set to
`[255, 255, 255, 255]`, then `cv2.cvtColor(·, COLOR_BGRA2BGR)` drops the
alpha channel, keeping the first three channel values of every pixel. -/
def alphaComposite (img : RawImage) : RawImage :=
  ⟨img.height, img.width, 3,
    (img.pixels.map (fun p => if p.getD 3 0 < 128 then [255, 255, 255, 255] else p)).map
      (fun p => p.take 3)⟩

/-- The guarded alpha branch: composite only when the decoded image reports
four channels. -/
def compositeStage (img : RawImage) : RawImage :=
  if img.channels == 4 then alphaComposite img else img

/-- Python's `\s` on the ASCII range: space, tab, newline, carriage return,
vertical tab, form feed. -/
def isPyWs (c : Char) : Bool :=
  c == ' ' || c == Char.ofNat 9 || c == Char.ofNat 10 || c == Char.ofNat 13 ||
    c == Char.ofNat 11 || c == Char.ofNat 12

/-- The double-quote character. -/
def qc : Char := Char.ofNat 34

/-- The single-quote character. -/
def sqc : Char := Char.ofNat 39

/-- Characters allowed in an XML attribute name in this development. -/
def isNameChar (c : Char) : Bool :=
  c.isAlpha || c.isDigit || c == '-' || c == '_' || c == ':' || c == '.'

/-- Match a literal character sequence at the start of the input, returning
the remainder on success. -/
def matchLit : List Char → List Char → Option (List Char)
  | [], s => some s
  | _ :: _, [] => none
  | c :: n, d :: s => if c = d then matchLit n s else none

/-- The `[^"]*"` part of the strip pattern: scan to the first double quote
(consuming it); fail when no quote remains. -/
def matchValueQ : List Char → Option (List Char)
  | [] => none
  | c :: rest => if c = qc then some rest else matchValueQ rest

/-- The attribute names stripped by the handler's `re.sub` pattern. -/
def stripTargets : List (List Char) :=
  ["width".data, "height".data, "viewBox".data, "style".data]

/-- One anchored attempt of the pattern
`\s+(width|height|viewBox|style)="[^"]*"`: at least one whitespace character
(the run taken greedily), one of the four attribute names immediately
followed by `="`, then characters up to the closing double quote. -/
def tryStripMatch : List Char → Option (List Char)
  | [] => none
  | c :: rest =>
    if isPyWs c then
      let afterWs := rest.dropWhile isPyWs
      match matchLit "width=\"".data afterWs with
      | some r => matchValueQ r
      | none =>
        match matchLit "height=\"".data afterWs with
        | some r => matchValueQ r
        | none =>
          match matchLit "viewBox=\"".data afterWs with
          | some r => matchValueQ r
          | none =>
            match matchLit "style=\"".data afterWs with
            | some r => matchValueQ r
            | none => none
    else none

/-- Fuelled scan of `re.sub(pattern, '', ·)`: at each position, remove a
match of the strip pattern and continue after it, or keep the character and
move on.  The fuel only bounds recursion depth; `subStrip` supplies enough
fuel for the whole input. -/
def subStripGo : Nat → List Char → List Char
  | _, [] => []
  | 0, l => l
  | fuel + 1, c :: rest =>
    match tryStripMatch (c :: rest) with
    | some remainder => subStripGo fuel remainder
    | none => c :: subStripGo fuel rest

/-- `re.sub(r'\s+(width|height|viewBox|style)="[^"]*"', '', attrs)` from the
handler. -/
def subStrip (l : List Char) : List Char := subStripGo l.length l

/-- The `([^>]*)>` part of the tag pattern: characters up to the first `>`
(which must exist), returning the group and the remainder after `>`. -/
def scanToGt : List Char → Option (List Char × List Char)
  | [] => none
  | c :: rest =>
    if c = '>' then some ([], rest)
    else
      match scanToGt rest with
      | some (a, s) => some (c :: a, s)
      | none => none

/-- One anchored attempt of `<svg([^>]*)>`. -/
def matchSvgAt : List Char → Option (List Char × List Char)
  | '<' :: 's' :: 'v' :: 'g' :: rest => scanToGt rest
  | _ => none

/-- `re.search(r'<svg([^>]*)>', s)`: leftmost match, returning the text
before the match, the attribute group, and the text after the tag. -/
def findSvgTag : List Char → Option (List Char × List Char × List Char)
  | [] => none
  | c :: rest =>
    match matchSvgAt (c :: rest) with
    | some (attrs, post) => some ([], attrs, post)
    | none =>
      match findSvgTag rest with
      | some (pre, a, s) => some (c :: pre, a, s)
      | none => none

/-- Whether the first list is an initial segment of the second. -/
def leadsWith : List Char → List Char → Bool
  | [], _ => true
  | _ :: _, [] => false
  | c :: n, d :: h => c == d && leadsWith n h

/-- Python's `s.replace(needle, repl, 1)`: replace the first occurrence. -/
def replaceFirst : List Char → List Char → List Char → List Char
  | [], needle, repl => if needle = [] then repl else []
  | c :: t, needle, repl =>
    if leadsWith needle (c :: t) then repl ++ (c :: t).drop needle.length
    else c :: replaceFirst t needle repl

/-- Whether the first list occurs contiguously anywhere in the second. -/
def occursIn (n : List Char) : List Char → Bool
  | [] => leadsWith n []
  | c :: t => leadsWith n (c :: t) || occursIn n t

/-- The attribute text the handler appends inside the rewritten `<svg>` tag
(everything of the f-string between `{attrs}` and the closing `>`). -/
def insertedText (w h : Nat) : List Char :=
  " width=\"100%\" height=\"100%\" viewBox=\"0 0 ".data ++ (toString w).data ++
    " ".data ++ (toString h).data ++
    "\" preserveAspectRatio=\"xMidYMid meet\" style=\"display:block;margin:auto;\"".data

/-- The viewBox attribute text `viewBox="0 0 {w} {h}"` (with its leading
space) that the handler splices into the rewritten tag. -/
def viewBoxText (w h : Nat) : List Char :=
  " viewBox=\"0 0 ".data ++ (toString w).data ++ " ".data ++ (toString h).data ++ "\"".data

/-- The handler's `new_tag` f-string: `<svg`, the stripped attributes, the
inserted sizing attributes, and `>`. -/
def new_tag (attrs : List Char) (w h : Nat) : List Char :=
  "<svg".data ++ subStrip attrs ++ insertedText w h ++ ">".data

/-- Lines 118–124 of `main.py`: find the first `<svg ...>` tag; when found,
strip sizing attributes from its group, build the new tag, and replace the
first occurrence of the matched tag text; otherwise pass the SVG through. -/
def rewriteSvg (svg : List Char) (w h : Nat) : List Char :=
  match findSvgTag svg with
  | none => svg
  | some (_, attrs, _) =>
    replaceFirst svg ("<svg".data ++ attrs ++ ">".data) (new_tag attrs w h)

/-- A structured SVG attribute: leading whitespace, name, double-quoted
value.  `renderAttr` lays it out as the text `{ws}{name}="{val}"` (with the
literal quotes). -/
structure SvgAttr where
  ws : List Char
  name : List Char
  val : List Char
deriving DecidableEq

/-- Text of one structured attribute. -/
def renderAttr (a : SvgAttr) : List Char :=
  a.ws ++ a.name ++ ('=' :: qc :: a.val) ++ [qc]

/-- Text of an attribute list. -/
def renderAttrs (l : List SvgAttr) : List Char := (l.map renderAttr).flatten

/-- Canonical well-formedness of a structured attribute: nonempty whitespace,
a nonempty name of name characters, and a value containing neither a double
quote nor an equals sign. -/
def GoodAttr (a : SvgAttr) : Prop :=
  a.ws ≠ [] ∧ (∀ c ∈ a.ws, isPyWs c = true) ∧ a.name ≠ [] ∧
    (∀ c ∈ a.name, isNameChar c = true) ∧ qc ∉ a.val ∧ '=' ∉ a.val

instance (a : SvgAttr) : Decidable (GoodAttr a) := by
  unfold GoodAttr; infer_instance

/-- The five attributes the handler inserts, in insertion order; rendering
them yields exactly `insertedText`. -/
def insertedAttrs (w h : Nat) : List SvgAttr :=
  [⟨[' '], "width".data, "100%".data⟩,
   ⟨[' '], "height".data, "100%".data⟩,
   ⟨[' '], "viewBox".data,
     "0 0 ".data ++ (toString w).data ++ " ".data ++ (toString h).data⟩,
   ⟨[' '], "preserveAspectRatio".data, "xMidYMid meet".data⟩,
   ⟨[' '], "style".data, "display:block;margin:auto;".data⟩]

/-- Scan a quoted value up to the closing quote character `q`. -/
def readToQuote (q : Char) : List Char → Option (List Char)
  | [] => none
  | c :: rest => if c = q then some rest else readToQuote q rest

/-- Fuelled permissive XML attribute-list scanner (names only). -/
def xmlAttrsGo : Nat → List Char → Option (List (List Char))
  | _, [] => some []
  | 0, _ :: _ => none
  | fuel + 1, c :: rest =>
    if isPyWs c then xmlAttrsGo fuel (rest.dropWhile isPyWs)
    else
      let name := (c :: rest).takeWhile isNameChar
      let r1 := (c :: rest).dropWhile isNameChar
      if name = [] then none
      else
        match r1.dropWhile isPyWs with
        | '=' :: r3 =>
          match r3.dropWhile isPyWs with
          | q :: r5 =>
            if q = qc ∨ q = sqc then
              match readToQuote q r5 with
              | some r6 => (xmlAttrsGo fuel r6).map (fun ns => name :: ns)
              | none => none
            else none
          | [] => none
        | _ => none

/-- Attribute names of a tag body under the SVG format's own attribute
syntax: names separated from values by `=` with arbitrary surrounding
whitespace, values in double or single quotes.  This is the spec-side
reading of "attribute" ("in any quoting or spacing the SVG format
permits"), used to compare the rewritten tag against the spec. -/
def xmlAttrNames (l : List Char) : Option (List (List Char)) :=
  xmlAttrsGo l.length l

/-- Form fields of the `/vectorize` endpoint, with their Python types
(`int` ↦ `Int`, `float` ↦ `Rat`, `bool` ↦ `Bool`, `str` ↦ `String`). -/
structure Request where
  file : List Nat
  turdsize : Int
  alphamax : Rat
  optcurve : Bool
  opttolerance : Rat
  threshold : Int
  manualThreshold : Bool
  algorithm : String

/-- Python `int(x)`: truncation toward zero. -/
def pyInt (q : Rat) : Int := if 0 ≤ q then ⌊q⌋ else ⌈q⌉

/-- The keyword arguments passed to `vtracer.convert_image_to_svg_py`. -/
structure VParams where
  colormode : String
  filter_speckle : Int
  corner_threshold : Int
  path_precision : Nat
deriving DecidableEq

/-- The parameter surface the handler passes to vtracer:
`colormode="binary"`, `filter_speckle=int(turdsize)`,
`corner_threshold=int(alphamax * 60)`, `path_precision=3`.
(`optcurve` and `opttolerance` are accepted but never forwarded.) -/
def vparams (req : Request) : VParams :=
  ⟨"binary", req.turdsize, pyInt (req.alphamax * 60), 3⟩

/-- The handler's JSON payload: either `{svgString, width, height}` or
`{error}`. -/
inductive Response where
  | success (svgString : List Char) (width : Nat) (height : Nat)
  | error (error : String)
deriving DecidableEq

/-- The external vectorizer, as an oracle over the PNG bytes written to the
temp input file and the parameters.  `Except.error e` models a raised
exception (caught by the handler's outermost `try`/`except`);
`Except.ok none` models a run after which the output SVG file does not
exist; `Except.ok (some svg)` models a produced SVG file with that text. -/
structure Tracer where
  convert : List Nat → VParams → Except String (Option (List Char))

/-- Grayscale conversion stage: `cv2.cvtColor(img, COLOR_BGR2GRAY)` applied
to the (possibly alpha-composited) decoded image. -/
def grayStage (O : Cv) (img0 : RawImage) : List Nat :=
  O.bgr2gray (compositeStage img0)

/-- The binary raster the handler feeds to the encoder: binarization under
the selected algorithm followed by polarity normalization. -/
def processedStage (O : Cv) (req : Request) (img0 : RawImage) : List Nat :=
  normalizePolarity
    (binarize O req.algorithm req.manualThreshold req.threshold (grayStage O img0))

/-- The `vectorize` request handler (lines 51–133 of `main.py`): decode,
short-circuit on an undecodable image, composite alpha, grayscale, binarize,
normalize polarity, encode to PNG (error when `is_success` is false), invoke
vtracer (an exception becomes an error payload with the exception text; a
missing output file becomes its own error), rewrite the SVG, and answer with
the SVG text and the decoded image's pixel dimensions. -/
def vectorize (O : Cv) (V : Tracer) (req : Request) : Response :=
  match O.imdecodeColor req.file with
  | none => Response.error "Invalid image data"
  | some img0 =>
    let img := compositeStage img0
    match O.imencodePng (processedStage O req img0) with
    | none => Response.error "Failed to encode image"
    | some buffer =>
      match V.convert buffer (vparams req) with
      | Except.error e => Response.error e
      | Except.ok none => Response.error "vtracer failed to generate SVG output"
      | Except.ok (some svgRaw) =>
        Response.success (rewriteSvg svgRaw img.width img.height) img.width img.height

/-- The handler with the four-channel alpha branch deleted: the decoded
image is used directly.  This is a spec-side comparison program used to
state that the alpha branch is unreachable under `IMREAD_COLOR` decoding. -/
def vectorizeNoAlphaBranch (O : Cv) (V : Tracer) (req : Request) : Response :=
  match O.imdecodeColor req.file with
  | none => Response.error "Invalid image data"
  | some img0 =>
    match O.imencodePng (normalizePolarity
        (binarize O req.algorithm req.manualThreshold req.threshold (O.bgr2gray img0))) with
    | none => Response.error "Failed to encode image"
    | some buffer =>
      match V.convert buffer (vparams req) with
      | Except.error e => Response.error e
      | Except.ok none => Response.error "vtracer failed to generate SVG output"
      | Except.ok (some svgRaw) =>
        Response.success (rewriteSvg svgRaw img0.width img0.height) img0.width img0.height

/-- A fixed 3-channel 3×2 decoded image for witnesses. -/
def imgW3 : RawImage :=
  ⟨2, 3, 3, [[0, 0, 0], [255, 255, 255], [0, 0, 0], [0, 0, 0], [0, 0, 0], [0, 0, 0]]⟩

/-- A fixed 4-channel 2×1 pixel grid for witnesses. -/
def imgW4 : RawImage := ⟨1, 2, 4, [[1, 2, 3, 10], [4, 5, 6, 200]]⟩

/-- A concrete OpenCV oracle for witnesses: decodes everything to a fixed
3-channel 3×2 image. -/
def cvW : Cv :=
  ⟨fun _ => some imgW3,
   fun img => img.pixels.map (fun p => p.headD 0),
   fun _ => 100,
   fun g => g,
   fun _ _ => 0,
   fun buf => some buf⟩

/-- A concrete OpenCV oracle for witnesses whose decoder always fails. -/
def cvNone : Cv :=
  ⟨fun _ => none, fun _ => [], fun _ => 0, fun g => g, fun _ _ => 0, fun _ => none⟩

/-- A concrete vectorizer oracle for witnesses, producing a fixed SVG. -/
def tracerW : Tracer :=
  ⟨fun _ _ => Except.ok (some "<svg height=\"9\"><path d=\"M0 0\"/></svg>".data)⟩

/-- A concrete vectorizer oracle for witnesses that raises an exception. -/
def tracerErr : Tracer := ⟨fun _ _ => Except.error "vtracer exploded"⟩

/-- A concrete attribute list for witnesses: `width="5" fill="red"`. -/
def attrsW : List SvgAttr :=
  [⟨[' '], "width".data, "5".data⟩, ⟨[' '], "fill".data, "red".data⟩]

/-- A concrete request for witnesses. -/
def reqW : Request := ⟨[1, 2, 3], 2, 1, true, 1 / 5, 128, false, "median-otsu"⟩

end Linolium

namespace Linolium

/-- A pixel raster is binary when every value is 0 or 255. -/
abbrev BinaryRaster (img : List Nat) : Prop := ∀ v ∈ img, v = 0 ∨ v = 255

lemma bitwise_not_zero : bitwise_not 0 = 255 := rfl

lemma bitwise_not_255 : bitwise_not 255 = 0 := rfl

lemma blackCount_map_not (img : List Nat) (h : BinaryRaster img) :
    blackCount (img.map bitwise_not) = whiteCount img := by
  induction img with
  | nil => rfl
  | cons v rest ih =>
    have hv := h v (List.mem_cons_self v rest)
    have hrest : BinaryRaster rest := fun u hu => h u (List.mem_cons_of_mem v hu)
    rcases hv with hv | hv <;> subst hv <;>
      simp only [List.map_cons, blackCount, whiteCount, List.countP_cons] <;>
      rw [show List.countP (fun v => v == 0) (List.map bitwise_not rest) =
            blackCount (List.map bitwise_not rest) from rfl, ih hrest] <;>
      rfl

lemma whiteCount_map_not (img : List Nat) (h : BinaryRaster img) :
    whiteCount (img.map bitwise_not) = blackCount img := by
  induction img with
  | nil => rfl
  | cons v rest ih =>
    have hv := h v (List.mem_cons_self v rest)
    have hrest : BinaryRaster rest := fun u hu => h u (List.mem_cons_of_mem v hu)
    rcases hv with hv | hv <;> subst hv <;>
      simp only [List.map_cons, blackCount, whiteCount, List.countP_cons] <;>
      rw [show List.countP (fun v => v == 255) (List.map bitwise_not rest) =
            whiteCount (List.map bitwise_not rest) from rfl, ih hrest] <;>
      rfl

/-- **C1** — Polarity normalization rule: on every binary (0/255) raster the
handler's normalization (count pixels equal to 0 and to 255; invert with
`bitwise_not` exactly when the black count strictly exceeds twice the white
count; otherwise return the raster unchanged) coincides with the spec's
formulation of that contract. -/
theorem polarity_rule_matches_spec (img : List Nat) (h : BinaryRaster img) :
    normalizePolarity img = normalizePolaritySpec img := by
  have hmap : img.map bitwise_not = img.map (fun v => 255 - v) := by
    apply List.map_congr_left
    intro v hv
    rcases h v hv with hv0 | hv0 <;> subst hv0 <;> rfl
  unfold normalizePolarity normalizePolaritySpec
  rw [show whiteCount img * 2 = 2 * whiteCount img from Nat.mul_comm _ 2]
  unfold blackCount whiteCount
  split <;> simp [hmap]

/-- Witness for C1 at a concrete binary raster (mostly black, so the rule
fires). -/
theorem polarity_rule_matches_spec_witness :
    normalizePolarity [0, 0, 0, 255] = normalizePolaritySpec [0, 0, 0, 255] :=
  polarity_rule_matches_spec [0, 0, 0, 255] (by decide)

/-- **C2** — Polarity normalization is idempotent on binary rasters: the
count-and-compare check never fires on the output of one application, and a
second application is the identity on that output. -/
theorem polarity_idempotent (img : List Nat) (h : BinaryRaster img) :
    ¬ blackCount (normalizePolarity img) > whiteCount (normalizePolarity img) * 2
    ∧ normalizePolarity (normalizePolarity img) = normalizePolarity img := by
  by_cases hc : blackCount img > whiteCount img * 2
  · have hb := blackCount_map_not img h
    have hw := whiteCount_map_not img h
    have hfired : normalizePolarity img = img.map bitwise_not := by
      unfold normalizePolarity; rw [if_pos hc]
    constructor
    · rw [hfired, hb, hw]
      omega
    · rw [hfired]
      have : ¬ blackCount (img.map bitwise_not) > whiteCount (img.map bitwise_not) * 2 := by
        rw [hb, hw]; omega
      conv_lhs => unfold normalizePolarity
      rw [if_neg this]
  · have hskip : normalizePolarity img = img := by
      unfold normalizePolarity; rw [if_neg hc]
    rw [hskip]
    exact ⟨hc, hskip⟩

/-- **C6** — Adaptive thresholding ignores the manual-threshold fields: with
`algorithm = "adaptive"`, the binarization step yields the same raster for
any two settings of `manualThreshold` and `threshold`. -/
theorem adaptive_ignores_manual (O : Cv) (m1 m2 : Bool) (t1 t2 : Int)
    (g : List Nat) :
    binarize O "adaptive" m1 t1 g = binarize O "adaptive" m2 t2 g := by
  simp [binarize]

/-- **C7** — Unrecognized algorithm strings fall through silently: for any
algorithm value outside the three recognized names, the binarization step
behaves exactly as the `"otsu"` default branch — a hard threshold at the
supplied cutoff when `manualThreshold` is set, else Otsu's automatic
threshold — and raises no error. -/
theorem unknown_algorithm_defaults (O : Cv) (alg : String) (m : Bool)
    (t : Int) (g : List Nat)
    (h1 : alg ≠ "otsu") (h2 : alg ≠ "median-otsu") (h3 : alg ≠ "adaptive") :
    binarize O alg m t g = binarize O "otsu" m t g
    ∧ (m = true → binarize O alg m t g = threshBinary t g)
    ∧ (m = false → binarize O alg m t g = otsu_threshold O g) := by
  have d1 : ("otsu" : String) ≠ "adaptive" := by decide
  have d2 : ("otsu" : String) ≠ "median-otsu" := by decide
  refine ⟨?_, ?_, ?_⟩ <;> simp [binarize, h2, h3, d1, d2]
  · intro hm; simp [hm]
  · intro hm; simp [hm]

/-- Witness for C7 at the unrecognized algorithm string `"foo"`. -/
theorem unknown_algorithm_defaults_witness :
    binarize cvW "foo" true 7 [1, 2] = binarize cvW "otsu" true 7 [1, 2]
    ∧ (true = true → binarize cvW "foo" true 7 [1, 2] = threshBinary 7 [1, 2])
    ∧ (true = false → binarize cvW "foo" true 7 [1, 2] = otsu_threshold cvW [1, 2]) :=
  unknown_algorithm_defaults cvW "foo" true 7 [1, 2] (by decide) (by decide) (by decide)

lemma threshBinary_binary (t : Int) (g : List Nat) :
    BinaryRaster (threshBinary t g) := by
  intro v hv
  rcases List.mem_map.1 hv with ⟨u, _, rfl⟩
  split <;> simp

/-- **C9** — Binary-mask invariant: every branch of the binarization step
produces a raster whose pixels are all 0 or 255; the polarity normalization
preserves that invariant; and on such a raster the black count plus the
white count equals the total number of pixels. -/
theorem binarize_binary_invariant :
    (∀ (O : Cv) (alg : String) (m : Bool) (t : Int) (g : List Nat),
        BinaryRaster (binarize O alg m t g))
    ∧ (∀ img : List Nat, BinaryRaster img → BinaryRaster (normalizePolarity img))
    ∧ (∀ img : List Nat, BinaryRaster img →
        blackCount img + whiteCount img = img.length) := by
  refine ⟨?_, ?_, ?_⟩
  · intro O alg m t g v hv
    unfold binarize at hv
    by_cases h1 : alg = "adaptive"
    · rw [if_pos h1] at hv
      rcases List.mem_map.1 hv with ⟨i, _, rfl⟩
      unfold apply_adaptive_threshold at *
      split <;> simp
    · rw [if_neg h1] at hv
      simp only [] at hv
      by_cases hm : m
      · rw [if_pos hm] at hv
        exact threshBinary_binary _ _ v hv
      · rw [if_neg hm] at hv
        exact threshBinary_binary _ _ v hv
  · intro img h v hv
    unfold normalizePolarity at hv
    split at hv
    · rcases List.mem_map.1 hv with ⟨u, hu, rfl⟩
      rcases h u hu with h0 | h0 <;> subst h0 <;> simp [bitwise_not]
    · exact h v hv
  · intro img h
    induction img with
    | nil => rfl
    | cons v rest ih =>
      have hv := h v (List.mem_cons_self v rest)
      have hrest : BinaryRaster rest := fun u hu => h u (List.mem_cons_of_mem v hu)
      have := ih hrest
      rcases hv with hv | hv <;> subst hv <;>
        simp [blackCount, whiteCount, List.countP_cons, List.length_cons] at this ⊢ <;>
        omega

/-- Witness for C9's conditional conjuncts at a concrete binary raster. -/
theorem binarize_binary_invariant_witness :
    BinaryRaster (normalizePolarity [0, 255, 0])
    ∧ blackCount [0, 255, 0] + whiteCount [0, 255, 0] = 3 :=
  ⟨binarize_binary_invariant.2.1 [0, 255, 0] (by decide),
   binarize_binary_invariant.2.2 [0, 255, 0] (by decide)⟩

/-- **C3** — Error handling totality and response shape: every run of the
handler answers with either a `success` payload (fields `svgString`,
`width`, `height`) or an `error` payload (field `error`); an undecodable
image short-circuits with the distinct message `"Invalid image data"`; and
an exception raised by the vectorizer stage is caught and converted to an
error payload carrying the exception's text. -/
theorem response_shape_total (O : Cv) (V : Tracer) (req : Request) :
    ((∃ s w h, vectorize O V req = Response.success s w h)
      ∨ (∃ m, vectorize O V req = Response.error m))
    ∧ (O.imdecodeColor req.file = none →
        vectorize O V req = Response.error "Invalid image data")
    ∧ (∀ img buf e, O.imdecodeColor req.file = some img →
        O.imencodePng (processedStage O req img) = some buf →
        V.convert buf (vparams req) = Except.error e →
        vectorize O V req = Response.error e) := by
  refine ⟨?_, ?_, ?_⟩
  · cases h : vectorize O V req with
    | success s w h2 => exact Or.inl ⟨s, w, h2, rfl⟩
    | error m => exact Or.inr ⟨m, rfl⟩
  · intro hd
    simp [vectorize, hd]
  · intro img buf e hd he hc
    simp [vectorize, hd, he, hc]

/-- Witness for C3: the short-circuit on an undecodable image and the
conversion of a vectorizer exception, at concrete oracles. -/
theorem response_shape_total_witness :
    vectorize cvNone tracerW reqW = Response.error "Invalid image data"
    ∧ vectorize cvW tracerErr reqW = Response.error "vtracer exploded" :=
  ⟨(response_shape_total cvNone tracerW reqW).2.1 rfl,
   (response_shape_total cvW tracerErr reqW).2.2 imgW3
     (processedStage cvW reqW imgW3) "vtracer exploded" rfl rfl rfl⟩

/-- **C5** — Alpha compositing: on a four-channel pixel grid, the alpha
branch keeps the image's dimensions, flattens to three channels, maps every
pixel with alpha (fourth channel) strictly below 128 to opaque white
`[255, 255, 255]`, and keeps the first three channel values of every other
pixel unchanged — a hard cutoff with no partial-alpha blending. -/
theorem alpha_compositing_rule (img : RawImage) (hc : img.channels = 4) :
    (alphaComposite img).channels = 3
    ∧ (alphaComposite img).width = img.width
    ∧ (alphaComposite img).height = img.height
    ∧ (alphaComposite img).pixels =
        img.pixels.map (fun p => if p.getD 3 0 < 128 then [255, 255, 255] else p.take 3) := by
  refine ⟨rfl, rfl, rfl, ?_⟩
  unfold alphaComposite
  simp only [List.map_map]
  apply List.map_congr_left
  intro p _
  dsimp only [Function.comp]
  by_cases h : p.getD 3 0 < 128
  · rw [if_pos h, if_pos h]
    rfl
  · rw [if_neg h, if_neg h]

/-- Witness for C5 at a concrete 4-channel grid with one transparent and one
opaque pixel. -/
theorem alpha_compositing_rule_witness :
    (alphaComposite imgW4).channels = 3
    ∧ (alphaComposite imgW4).width = imgW4.width
    ∧ (alphaComposite imgW4).height = imgW4.height
    ∧ (alphaComposite imgW4).pixels =
        imgW4.pixels.map (fun p => if p.getD 3 0 < 128 then [255, 255, 255] else p.take 3) :=
  alpha_compositing_rule imgW4 rfl

/-- **C10** — Alpha branch unreachability: under the `IMREAD_COLOR` decode
contract (`cv2.imdecode(·, cv2.IMREAD_COLOR)` always yields a three-channel
raster when it succeeds, discarding any alpha plane at decode time), the
four-channel compositing branch is the identity on every decoded image, and
the whole handler coincides with the handler whose alpha branch is deleted. -/
theorem alpha_branch_unreachable (O : Cv) (V : Tracer) (req : Request)
    (hcontract : ∀ b img, O.imdecodeColor b = some img → img.channels = 3) :
    (∀ img, O.imdecodeColor req.file = some img → compositeStage img = img)
    ∧ vectorize O V req = vectorizeNoAlphaBranch O V req := by
  have hcomp : ∀ img, O.imdecodeColor req.file = some img → compositeStage img = img := by
    intro img hd
    have h3 := hcontract _ _ hd
    unfold compositeStage
    rw [h3]
    rfl
  refine ⟨hcomp, ?_⟩
  cases hd : O.imdecodeColor req.file with
  | none => simp [vectorize, vectorizeNoAlphaBranch, hd]
  | some img =>
    simp [vectorize, vectorizeNoAlphaBranch, hd, processedStage, grayStage, hcomp img hd]

/-- Witness for C10 at a concrete oracle satisfying the decode contract. -/
theorem alpha_branch_unreachable_witness :
    compositeStage imgW3 = imgW3
    ∧ vectorize cvW tracerW reqW = vectorizeNoAlphaBranch cvW tracerW reqW := by
  have hcontract : ∀ b img, cvW.imdecodeColor b = some img → img.channels = 3 := by
    intro b img h
    cases h
    rfl
  exact ⟨(alpha_branch_unreachable cvW tracerW reqW hcontract).1 imgW3 rfl,
    (alpha_branch_unreachable cvW tracerW reqW hcontract).2⟩

lemma compositeStage_width (img : RawImage) :
    (compositeStage img).width = img.width := by
  unfold compositeStage alphaComposite
  split <;> rfl

lemma compositeStage_height (img : RawImage) :
    (compositeStage img).height = img.height := by
  unfold compositeStage alphaComposite
  split <;> rfl

lemma leadsWith_iff (n h : List Char) :
    leadsWith n h = true ↔ ∃ t, h = n ++ t := by
  induction n generalizing h with
  | nil =>
    simp [leadsWith]
  | cons c n' ih =>
    cases h with
    | nil => simp [leadsWith]
    | cons d h' =>
      simp only [leadsWith, Bool.and_eq_true, beq_iff_eq, ih, List.cons_append,
        List.cons.injEq]
      constructor
      · rintro ⟨rfl, t, rfl⟩; exact ⟨t, rfl, rfl⟩
      · rintro ⟨t, rfl, rfl⟩; exact ⟨rfl, t, rfl⟩

lemma occursIn_of_leadsWith (n h : List Char) (hl : leadsWith n h = true) :
    occursIn n h = true := by
  cases h with
  | nil => exact hl
  | cons c t => simp [occursIn, hl]

lemma occursIn_of_split (n x y : List Char) :
    occursIn n (x ++ n ++ y) = true := by
  induction x with
  | nil =>
    apply occursIn_of_leadsWith
    exact (leadsWith_iff n _).2 ⟨y, by simp⟩
  | cons c x' ih =>
    show occursIn n (c :: (x' ++ n ++ y)) = true
    have hstep : occursIn n (c :: (x' ++ n ++ y)) =
        (leadsWith n (c :: (x' ++ n ++ y)) || occursIn n (x' ++ n ++ y)) := rfl
    rw [hstep, ih, Bool.or_true]

lemma occursIn_iff (n h : List Char) :
    occursIn n h = true ↔ ∃ x y, h = x ++ n ++ y := by
  constructor
  · induction h with
    | nil =>
      intro ho
      have hn : ([] : List Char) = n ++ [] := by
        rcases (leadsWith_iff n []).1 ho with ⟨t, ht⟩
        rcases List.append_eq_nil.1 ht.symm with ⟨rfl, rfl⟩
        rfl
      exact ⟨[], [], by simpa using hn⟩
    | cons c t ih =>
      intro ho
      rw [occursIn, Bool.or_eq_true] at ho
      rcases ho with hl | ho2
      · rcases (leadsWith_iff n _).1 hl with ⟨y, hy⟩
        exact ⟨[], y, by simpa using hy⟩
      · rcases ih ho2 with ⟨x, y, hxy⟩
        exact ⟨c :: x, y, by simp [hxy]⟩
  · rintro ⟨x, y, rfl⟩
    exact occursIn_of_split n x y

lemma occursIn_trans (a b c : List Char) (hab : occursIn a b = true)
    (hbc : occursIn b c = true) : occursIn a c = true := by
  rcases (occursIn_iff a b).1 hab with ⟨x, y, rfl⟩
  rcases (occursIn_iff _ c).1 hbc with ⟨u, v, rfl⟩
  exact (occursIn_iff a _).2 ⟨u ++ x, y ++ v, by simp [List.append_assoc]⟩

lemma replaceFirst_occurs (h n r : List Char) (ho : occursIn n h = true) :
    occursIn r (replaceFirst h n r) = true := by
  induction h with
  | nil =>
    have hn : n = [] := by
      rcases (leadsWith_iff n []).1 ho with ⟨t, ht⟩
      rcases List.append_eq_nil.1 ht.symm with ⟨rfl, rfl⟩
      rfl
    subst hn
    simpa [replaceFirst] using
      occursIn_of_leadsWith r r ((leadsWith_iff r r).2 ⟨[], by simp⟩)
  | cons c t ih =>
    cases hl : leadsWith n (c :: t) with
    | true =>
      have hrw : replaceFirst (c :: t) n r = r ++ (c :: t).drop n.length := by
        simp [replaceFirst, hl]
      rw [hrw]
      exact (occursIn_iff r _).2 ⟨[], (c :: t).drop n.length, by simp⟩
    | false =>
      have ho2 : occursIn n t = true := by
        rw [occursIn, Bool.or_eq_true] at ho
        rcases ho with hx | hx
        · rw [hl] at hx; cases hx
        · exact hx
      cases hx : leadsWith r (c :: replaceFirst t n r) <;>
        simp [replaceFirst, hl, occursIn, hx, ih ho2]

lemma scanToGt_split (l : List Char) :
    ∀ a s, scanToGt l = some (a, s) → l = a ++ '>' :: s := by
  induction l with
  | nil => intro a s h; cases h
  | cons c rest ih =>
    intro a s h
    by_cases hc : c = '>'
    · subst hc
      simp [scanToGt] at h
      rcases h with ⟨rfl, rfl⟩
      rfl
    · cases hr : scanToGt rest with
      | none => simp [scanToGt, hc, hr] at h
      | some pa =>
        obtain ⟨a', s'⟩ := pa
        have ha := ih a' s' hr
        simp [scanToGt, hc, hr] at h
        obtain ⟨h1, h2⟩ := h
        subst h1; subst h2
        simpa using ha

lemma matchSvgAt_split (l : List Char) (a s : List Char)
    (h : matchSvgAt l = some (a, s)) : l = "<svg".data ++ a ++ '>' :: s := by
  unfold matchSvgAt at h
  split at h
  · rename_i rest
    have := scanToGt_split rest a s h
    simp [this]
  · cases h

lemma findSvgTag_split (l : List Char) :
    ∀ pre attrs suf, findSvgTag l = some (pre, attrs, suf) →
      l = pre ++ "<svg".data ++ attrs ++ '>' :: suf := by
  induction l with
  | nil => intro pre attrs suf h; cases h
  | cons c rest ih =>
    intro pre attrs suf h
    unfold findSvgTag at h
    cases hm : matchSvgAt (c :: rest) with
    | some pa =>
      obtain ⟨a, s⟩ := pa
      rw [hm] at h
      have ha := matchSvgAt_split (c :: rest) a s hm
      simp at h
      obtain ⟨h1, h2, h3⟩ := h
      subst h1; subst h2; subst h3
      simpa [List.append_assoc] using ha
    | none =>
      rw [hm] at h
      cases hf : findSvgTag rest with
      | none => rw [hf] at h; cases h
      | some pas =>
        obtain ⟨p, a, s⟩ := pas
        rw [hf] at h
        have ha := ih p a s hf
        simp at h
        obtain ⟨h1, h2, h3⟩ := h
        subst h1; subst h2; subst h3
        simpa using ha

lemma new_tag_split (attrs : List Char) (w h : Nat) :
    new_tag attrs w h =
      ("<svg".data ++ subStrip attrs ++ " width=\"100%\" height=\"100%\"".data) ++
        viewBoxText w h ++
        (" preserveAspectRatio=\"xMidYMid meet\" style=\"display:block;margin:auto;\"".data ++
          ">".data) := by
  have e1 : (" width=\"100%\" height=\"100%\"".data ++ " viewBox=\"0 0 ".data : List Char) =
      " width=\"100%\" height=\"100%\" viewBox=\"0 0 ".data := by decide
  have e2 : (("\"".data : List Char) ++
        " preserveAspectRatio=\"xMidYMid meet\" style=\"display:block;margin:auto;\"".data) =
      "\" preserveAspectRatio=\"xMidYMid meet\" style=\"display:block;margin:auto;\"".data := by
    decide
  unfold new_tag insertedText viewBoxText
  rw [← e1, ← e2]
  simp [List.append_assoc]

lemma new_tag_viewBox (attrs : List Char) (w h : Nat) :
    occursIn (viewBoxText w h) (new_tag attrs w h) = true := by
  rw [new_tag_split]
  exact occursIn_of_split _ _ _

lemma rewriteSvg_viewBox (raw : List Char) (w h : Nat)
    (pre attrs suf : List Char) (hft : findSvgTag raw = some (pre, attrs, suf)) :
    occursIn (viewBoxText w h) (rewriteSvg raw w h) = true := by
  unfold rewriteSvg
  rw [hft]
  have hraw : raw = pre ++ ("<svg".data ++ attrs ++ ">".data) ++ suf := by
    rw [findSvgTag_split raw pre attrs suf hft]
    simp [List.append_assoc]
  refine occursIn_trans _ (new_tag attrs w h) _ (new_tag_viewBox attrs w h) ?_
  exact replaceFirst_occurs raw _ _ ((occursIn_iff _ raw).2 ⟨pre, suf, hraw⟩)

/-- **C8** — Dimension preservation for `algorithm = "median-otsu"`: every
successful response carries exactly the decoded image's pixel width and
height, and the returned SVG (whenever the raw SVG contains an `<svg ...>`
tag at all) contains the rewritten tag's `viewBox="0 0 {width} {height}"`
built from those same dimensions. -/
theorem median_otsu_dims (O : Cv) (V : Tracer) (req : Request)
    (s : List Char) (w h : Nat)
    (halg : req.algorithm = "median-otsu")
    (hrun : vectorize O V req = Response.success s w h) :
    ∃ img, O.imdecodeColor req.file = some img ∧ w = img.width ∧ h = img.height
      ∧ ∃ raw, s = rewriteSvg raw img.width img.height
        ∧ ((∃ pre attrs suf, findSvgTag raw = some (pre, attrs, suf)) →
            occursIn (viewBoxText w h) s = true) := by
  cases hd : O.imdecodeColor req.file with
  | none => simp [vectorize, hd] at hrun
  | some img0 =>
    cases he : O.imencodePng (processedStage O req img0) with
    | none => simp [vectorize, hd, he] at hrun
    | some buffer =>
      cases hc : V.convert buffer (vparams req) with
      | error e => simp [vectorize, hd, he, hc] at hrun
      | ok o =>
        cases o with
        | none => simp [vectorize, hd, he, hc] at hrun
        | some raw =>
          simp only [vectorize, hd, he, hc, Response.success.injEq] at hrun
          obtain ⟨h1, h2, h3⟩ := hrun
          refine ⟨img0, rfl, ?_, ?_, raw, ?_, ?_⟩
          · rw [← h2, compositeStage_width]
          · rw [← h3, compositeStage_height]
          · rw [← h1, compositeStage_width, compositeStage_height]
          · rintro ⟨pre, attrs, suf, hft⟩
            rw [← h1, ← h2, ← h3]
            exact rewriteSvg_viewBox raw _ _ pre attrs suf hft

/-- Witness for C8 at a concrete successful `"median-otsu"` run. -/
theorem median_otsu_dims_witness :
    ∃ img, cvW.imdecodeColor reqW.file = some img ∧ 3 = img.width ∧ 2 = img.height
      ∧ ∃ raw,
          rewriteSvg "<svg height=\"9\"><path d=\"M0 0\"/></svg>".data 3 2 =
            rewriteSvg raw img.width img.height
        ∧ ((∃ pre attrs suf, findSvgTag raw = some (pre, attrs, suf)) →
            occursIn (viewBoxText 3 2)
              (rewriteSvg "<svg height=\"9\"><path d=\"M0 0\"/></svg>".data 3 2) = true) :=
  median_otsu_dims cvW tracerW reqW
    (rewriteSvg "<svg height=\"9\"><path d=\"M0 0\"/></svg>".data 3 2) 3 2 rfl (by decide)

lemma matchLit_iff (lit : List Char) :
    ∀ s r, matchLit lit s = some r ↔ s = lit ++ r := by
  induction lit with
  | nil =>
    intro s r
    simp [matchLit, eq_comm]
  | cons c n ih =>
    intro s r
    cases s with
    | nil => simp [matchLit]
    | cons d t =>
      by_cases hcd : c = d
      · subst hcd
        simp [matchLit, ih]
      · simp only [matchLit, if_neg hcd, List.cons_append, List.cons.injEq]
        constructor
        · intro hx; cases hx
        · rintro ⟨h1, -⟩; exact absurd h1.symm hcd

lemma nameChar_not_ws (c : Char) (h : isNameChar c = true) : isPyWs c = false := by
  cases hw : isPyWs c with
  | false => rfl
  | true =>
    exfalso
    simp only [isPyWs, Bool.or_eq_true, beq_iff_eq] at hw
    rcases hw with ((((hw | hw) | hw) | hw) | hw) | hw <;> subst hw <;>
      exact absurd h (by decide)

lemma dropWhile_append_all (p : Char → Bool) (l1 l2 : List Char)
    (h : ∀ c ∈ l1, p c = true) :
    List.dropWhile p (l1 ++ l2) = List.dropWhile p l2 := by
  induction l1 with
  | nil => rfl
  | cons c t ih =>
    rw [List.cons_append, List.dropWhile_cons_of_pos (h c (List.mem_cons_self c t))]
    exact ih (fun x hx => h x (List.mem_cons_of_mem c hx))

lemma dropWhile_append_head_neg (p : Char → Bool) (l1 : List Char) (c : Char)
    (l2 : List Char) (h : p c = false) :
    List.dropWhile p (l1 ++ c :: l2) = List.dropWhile p l1 ++ c :: l2 := by
  induction l1 with
  | nil =>
    rw [List.nil_append, List.dropWhile_cons_of_neg (by simp [h]), List.dropWhile_nil,
      List.nil_append]
  | cons a t ih =>
    cases hp : p a with
    | true =>
      rw [List.cons_append, List.dropWhile_cons_of_pos hp, List.dropWhile_cons_of_pos hp, ih]
    | false =>
      rw [List.cons_append, List.dropWhile_cons_of_neg (by simp [hp]),
        List.dropWhile_cons_of_neg (by simp [hp]), List.cons_append]

lemma matchValueQ_append (v r : List Char) (hq : qc ∉ v) :
    matchValueQ (v ++ qc :: r) = some r := by
  induction v with
  | nil => simp [matchValueQ]
  | cons a v' ih =>
    have ha : a ≠ qc := fun hh => hq (hh ▸ List.mem_cons_self a v')
    rw [List.cons_append, matchValueQ, if_neg ha]
    exact ih (fun hh => hq (List.mem_cons_of_mem a hh))

lemma matchValueQ_length : ∀ l r : List Char, matchValueQ l = some r → r.length < l.length := by
  intro l
  induction l with
  | nil => intro r h; cases h
  | cons c t ih =>
    intro r h
    rw [matchValueQ] at h
    by_cases hc : c = qc
    · rw [if_pos hc] at h
      injection h with h
      subst h
      simp
    · rw [if_neg hc] at h
      exact Nat.lt_trans (ih r h) (by simp)

lemma eqn_name : ∀ u t x y : List Char, (∀ c ∈ u, isNameChar c = true) →
    (∀ c ∈ t, isNameChar c = true) → u ++ '=' :: x = t ++ '=' :: y → u = t := by
  intro u
  induction u with
  | nil =>
    intro t x y _ ht heq
    cases t with
    | nil => rfl
    | cons c t' =>
      exfalso
      rw [List.nil_append, List.cons_append] at heq
      injection heq with h1 _
      have := ht c (List.mem_cons_self c t')
      rw [← h1] at this
      exact absurd this (by decide)
  | cons a u' ih =>
    intro t x y hu ht heq
    cases t with
    | nil =>
      exfalso
      rw [List.nil_append, List.cons_append] at heq
      injection heq with h1 _
      have := hu a (List.mem_cons_self a u')
      rw [h1] at this
      exact absurd this (by decide)
    | cons c t' =>
      rw [List.cons_append, List.cons_append] at heq
      injection heq with h1 h2
      subst h1
      rw [ih t' x y (fun z hz => hu z (List.mem_cons_of_mem a hz))
        (fun z hz => ht z (List.mem_cons_of_mem a hz)) h2]

lemma val_eq_absurd : ∀ v t R y : List Char, '=' ∉ v →
    (∀ c ∈ t, isNameChar c = true) → v ++ qc :: R = t ++ '=' :: y → False := by
  intro v
  induction v with
  | nil =>
    intro t R y _ ht heq
    cases t with
    | nil =>
      rw [List.nil_append, List.nil_append] at heq
      injection heq with h1 _
      exact absurd h1 (by decide)
    | cons c t' =>
      rw [List.nil_append, List.cons_append] at heq
      injection heq with h1 _
      have := ht c (List.mem_cons_self c t')
      rw [← h1] at this
      exact absurd this (by decide)
  | cons a v' ih =>
    intro t R y hv ht heq
    cases t with
    | nil =>
      rw [List.cons_append, List.nil_append] at heq
      injection heq with h1 _
      exact hv (h1 ▸ List.mem_cons_self a v')
    | cons c t' =>
      rw [List.cons_append, List.cons_append] at heq
      injection heq with h1 h2
      exact ih t' R y (fun hh => hv (List.mem_cons_of_mem a hh))
        (fun z hz => ht z (List.mem_cons_of_mem c hz)) h2

lemma matchLit_name_ne (u t X : List Char) (hu : ∀ c ∈ u, isNameChar c = true)
    (ht : ∀ c ∈ t, isNameChar c = true) (hne : u ≠ t) :
    matchLit (t ++ ['=', qc]) (u ++ '=' :: X) = none := by
  cases hm : matchLit (t ++ ['=', qc]) (u ++ '=' :: X) with
  | none => rfl
  | some r =>
    exfalso
    have heq := (matchLit_iff _ _ _).1 hm
    rw [List.append_assoc] at heq
    exact hne (eqn_name u t X (qc :: r) hu ht (by simpa using heq))

lemma matchLit_val_ne (v t R : List Char) (h1 : '=' ∉ v) (hq : qc ∉ v)
    (ht : ∀ c ∈ t, isNameChar c = true) :
    matchLit (t ++ ['=', qc]) (v ++ qc :: R) = none := by
  cases hm : matchLit (t ++ ['=', qc]) (v ++ qc :: R) with
  | none => rfl
  | some r =>
    exfalso
    have heq := (matchLit_iff _ _ _).1 hm
    rw [List.append_assoc] at heq
    exact val_eq_absurd v t R (qc :: r) h1 ht (by simpa using heq)

lemma width_lit : "width=\"".data = "width".data ++ ['=', qc] := by decide

lemma height_lit : "height=\"".data = "height".data ++ ['=', qc] := by decide

lemma viewBox_lit : "viewBox=\"".data = "viewBox".data ++ ['=', qc] := by decide

lemma style_lit : "style=\"".data = "style".data ++ ['=', qc] := by decide

lemma width_name : ∀ c ∈ "width".data, isNameChar c = true := by decide

lemma height_name : ∀ c ∈ "height".data, isNameChar c = true := by decide

lemma viewBox_name : ∀ c ∈ "viewBox".data, isNameChar c = true := by decide

lemma style_name : ∀ c ∈ "style".data, isNameChar c = true := by decide

lemma suffix_split {x1 x2 u v : List Char} (h : x1 ++ x2 = u ++ v) :
    (∃ u1 u2, u = u1 ++ u2 ∧ x2 = u2 ++ v) ∨ (∃ v1, v1 ++ x2 = v) := by
  rcases List.append_eq_append_iff.1 h with ⟨a2, h1, h2⟩ | ⟨c2, h1, h2⟩
  · exact Or.inl ⟨x1, a2, h1, h2⟩
  · exact Or.inr ⟨c2, h2.symm⟩

lemma tryStripMatch_cons_neg (c : Char) (rest : List Char) (h : isPyWs c = false) :
    tryStripMatch (c :: rest) = none := by
  simp [tryStripMatch, h]

lemma tryStripMatch_target (a : SvgAttr) (R : List Char) (hg : GoodAttr a)
    (hmem : a.name ∈ stripTargets) :
    tryStripMatch (renderAttr a ++ R) = some R := by
  obtain ⟨hws, hwsall, hname, hnameall, hqval, heval⟩ := hg
  obtain ⟨w0, ws', hw⟩ : ∃ w0 ws', a.ws = w0 :: ws' := by
    cases hA : a.ws with
    | nil => exact absurd hA hws
    | cons x y => exact ⟨x, y, rfl⟩
  have hren : renderAttr a ++ R =
      w0 :: (ws' ++ (a.name ++ '=' :: qc :: (a.val ++ qc :: R))) := by
    simp [renderAttr, hw, List.append_assoc]
  have hw0 : isPyWs w0 = true := hwsall w0 (by rw [hw]; exact List.mem_cons_self _ _)
  have hnhead : List.dropWhile isPyWs (a.name ++ '=' :: qc :: (a.val ++ qc :: R)) =
      a.name ++ '=' :: qc :: (a.val ++ qc :: R) := by
    cases hN : a.name with
    | nil => exact absurd hN hname
    | cons n0 n' =>
      rw [List.cons_append, List.dropWhile_cons_of_neg (by
        rw [nameChar_not_ws n0 (hnameall n0 (by rw [hN]; exact List.mem_cons_self _ _))]
        simp)]
  have hdrop : List.dropWhile isPyWs (ws' ++ (a.name ++ '=' :: qc :: (a.val ++ qc :: R))) =
      a.name ++ '=' :: qc :: (a.val ++ qc :: R) := by
    rw [dropWhile_append_all isPyWs ws' _
      (fun z hz => hwsall z (by rw [hw]; exact List.mem_cons_of_mem _ hz)), hnhead]
  have hmv : matchValueQ (a.val ++ qc :: R) = some R := matchValueQ_append _ _ hqval
  rw [hren]
  have hdisj : a.name = "width".data ∨ a.name = "height".data ∨
      a.name = "viewBox".data ∨ a.name = "style".data := by
    simpa [stripTargets] using hmem
  rcases hdisj with hn | hn | hn | hn
  · have hm1 : matchLit "width=\"".data (a.name ++ '=' :: qc :: (a.val ++ qc :: R)) =
        some (a.val ++ qc :: R) := by
      rw [hn, width_lit]
      exact (matchLit_iff _ _ _).2 (by simp [List.append_assoc])
    simp [tryStripMatch, hw0, hdrop, hm1, hmv]
  · have hm1 : matchLit "width=\"".data (a.name ++ '=' :: qc :: (a.val ++ qc :: R)) = none := by
      rw [hn]; rfl
    have hm2 : matchLit "height=\"".data (a.name ++ '=' :: qc :: (a.val ++ qc :: R)) =
        some (a.val ++ qc :: R) := by
      rw [hn, height_lit]
      exact (matchLit_iff _ _ _).2 (by simp [List.append_assoc])
    simp [tryStripMatch, hw0, hdrop, hm1, hm2, hmv]
  · have hm1 : matchLit "width=\"".data (a.name ++ '=' :: qc :: (a.val ++ qc :: R)) = none := by
      rw [hn]; rfl
    have hm2 : matchLit "height=\"".data (a.name ++ '=' :: qc :: (a.val ++ qc :: R)) = none := by
      rw [hn]; rfl
    have hm3 : matchLit "viewBox=\"".data (a.name ++ '=' :: qc :: (a.val ++ qc :: R)) =
        some (a.val ++ qc :: R) := by
      rw [hn, viewBox_lit]
      exact (matchLit_iff _ _ _).2 (by simp [List.append_assoc])
    simp [tryStripMatch, hw0, hdrop, hm1, hm2, hm3, hmv]
  · have hm1 : matchLit "width=\"".data (a.name ++ '=' :: qc :: (a.val ++ qc :: R)) = none := by
      rw [hn]; rfl
    have hm2 : matchLit "height=\"".data (a.name ++ '=' :: qc :: (a.val ++ qc :: R)) = none := by
      rw [hn]; rfl
    have hm3 : matchLit "viewBox=\"".data (a.name ++ '=' :: qc :: (a.val ++ qc :: R)) = none := by
      rw [hn]; rfl
    have hm4 : matchLit "style=\"".data (a.name ++ '=' :: qc :: (a.val ++ qc :: R)) =
        some (a.val ++ qc :: R) := by
      rw [hn, style_lit]
      exact (matchLit_iff _ _ _).2 (by simp [List.append_assoc])
    simp [tryStripMatch, hw0, hdrop, hm1, hm2, hm3, hm4, hmv]

lemma tryStripMatch_ws_name_neg (w0 : Char) (u2' : List Char)
    (hws : ∀ c ∈ w0 :: u2', isPyWs c = true) (nm val R : List Char) (hnm : nm ≠ [])
    (hnmall : ∀ c ∈ nm, isNameChar c = true) (hnmem : nm ∉ stripTargets) :
    tryStripMatch (w0 :: (u2' ++ (nm ++ '=' :: qc :: (val ++ qc :: R)))) = none := by
  have hw0 : isPyWs w0 = true := hws w0 (List.mem_cons_self _ _)
  have hnhead : List.dropWhile isPyWs (nm ++ '=' :: qc :: (val ++ qc :: R)) =
      nm ++ '=' :: qc :: (val ++ qc :: R) := by
    cases hN : nm with
    | nil => exact absurd hN hnm
    | cons n0 n' =>
      rw [List.cons_append, List.dropWhile_cons_of_neg (by
        rw [nameChar_not_ws n0 (hnmall n0 (by rw [hN]; exact List.mem_cons_self _ _))]
        simp)]
  have hdrop : List.dropWhile isPyWs (u2' ++ (nm ++ '=' :: qc :: (val ++ qc :: R))) =
      nm ++ '=' :: qc :: (val ++ qc :: R) := by
    rw [dropWhile_append_all isPyWs u2' _
      (fun z hz => hws z (List.mem_cons_of_mem _ hz)), hnhead]
  simp only [stripTargets, List.mem_cons, List.mem_singleton, not_or] at hnmem
  obtain ⟨hne1, hne2, hne3, hne4, -⟩ := hnmem
  have hm1 : matchLit "width=\"".data (nm ++ '=' :: qc :: (val ++ qc :: R)) = none := by
    rw [width_lit]
    exact matchLit_name_ne nm "width".data _ hnmall width_name hne1
  have hm2 : matchLit "height=\"".data (nm ++ '=' :: qc :: (val ++ qc :: R)) = none := by
    rw [height_lit]
    exact matchLit_name_ne nm "height".data _ hnmall height_name hne2
  have hm3 : matchLit "viewBox=\"".data (nm ++ '=' :: qc :: (val ++ qc :: R)) = none := by
    rw [viewBox_lit]
    exact matchLit_name_ne nm "viewBox".data _ hnmall viewBox_name hne3
  have hm4 : matchLit "style=\"".data (nm ++ '=' :: qc :: (val ++ qc :: R)) = none := by
    rw [style_lit]
    exact matchLit_name_ne nm "style".data _ hnmall style_name hne4
  simp [tryStripMatch, hw0, hdrop, hm1, hm2, hm3, hm4]

lemma tryStripMatch_val_pos (v2' R : List Char) (hv1 : '=' ∉ v2') (hv2 : qc ∉ v2')
    (c0 : Char) (hc0 : isPyWs c0 = true) :
    tryStripMatch (c0 :: (v2' ++ qc :: R)) = none := by
  have hdrop : List.dropWhile isPyWs (v2' ++ qc :: R) =
      v2'.dropWhile isPyWs ++ qc :: R :=
    dropWhile_append_head_neg _ _ _ _ (by decide)
  have hsub : ∀ z, z ∈ v2'.dropWhile isPyWs → z ∈ v2' :=
    fun z hz => (List.dropWhile_sublist _).subset hz
  have h1 : '=' ∉ v2'.dropWhile isPyWs := fun hh => hv1 (hsub _ hh)
  have h2 : qc ∉ v2'.dropWhile isPyWs := fun hh => hv2 (hsub _ hh)
  have hm1 : matchLit "width=\"".data (v2'.dropWhile isPyWs ++ qc :: R) = none := by
    rw [width_lit]
    exact matchLit_val_ne _ _ _ h1 h2 width_name
  have hm2 : matchLit "height=\"".data (v2'.dropWhile isPyWs ++ qc :: R) = none := by
    rw [height_lit]
    exact matchLit_val_ne _ _ _ h1 h2 height_name
  have hm3 : matchLit "viewBox=\"".data (v2'.dropWhile isPyWs ++ qc :: R) = none := by
    rw [viewBox_lit]
    exact matchLit_val_ne _ _ _ h1 h2 viewBox_name
  have hm4 : matchLit "style=\"".data (v2'.dropWhile isPyWs ++ qc :: R) = none := by
    rw [style_lit]
    exact matchLit_val_ne _ _ _ h1 h2 style_name
  simp [tryStripMatch, hc0, hdrop, hm1, hm2, hm3, hm4]

lemma tryStripMatch_token_inner (a : SvgAttr) (R : List Char) (hg : GoodAttr a)
    (hmem : a.name ∉ stripTargets) :
    ∀ x1 x2 : List Char, x1 ++ x2 = renderAttr a → x2 ≠ [] →
      tryStripMatch (x2 ++ R) = none := by
  obtain ⟨hws, hwsall, hname, hnameall, hqval, heval⟩ := hg
  intro x1 x2 hx hne
  have hra : renderAttr a = a.ws ++ (a.name ++ ('=' :: qc :: (a.val ++ [qc]))) := by
    simp [renderAttr, List.append_assoc]
  rw [hra] at hx
  rcases suffix_split hx with ⟨u1, u2, hu, hx2⟩ | ⟨v1, hx2⟩
  · subst hx2
    cases u2 with
    | nil =>
      cases hN : a.name with
      | nil => exact absurd hN hname
      | cons n0 n' =>
        rw [List.nil_append]
        exact tryStripMatch_cons_neg n0 _
          (nameChar_not_ws n0 (hnameall n0 (by rw [hN]; exact List.mem_cons_self _ _)))
    | cons w0 u2' =>
      have hmold : ((w0 :: u2') ++ (a.name ++ ('=' :: qc :: (a.val ++ [qc])))) ++ R =
          w0 :: (u2' ++ (a.name ++ '=' :: qc :: (a.val ++ qc :: R))) := by
        simp [List.append_assoc]
      rw [hmold]
      exact tryStripMatch_ws_name_neg w0 u2'
        (fun z hz => hwsall z (by rw [hu]; exact List.mem_append_right _ hz))
        a.name a.val R hname hnameall hmem
  · rcases suffix_split hx2 with ⟨n1, n2, hn, hx3⟩ | ⟨m1, hx3⟩
    · subst hx3
      cases n2 with
      | nil =>
        rw [List.nil_append]
        exact tryStripMatch_cons_neg '=' _ (by decide)
      | cons n0 n2' =>
        have hn0 : isNameChar n0 = true :=
          hnameall n0 (by rw [hn]; exact List.mem_append_right _ (List.mem_cons_self _ _))
        exact tryStripMatch_cons_neg n0 _ (nameChar_not_ws n0 hn0)
    · cases m1 with
      | nil =>
        rw [List.nil_append] at hx3
        subst hx3
        exact tryStripMatch_cons_neg '=' _ (by decide)
      | cons e m1' =>
        rw [List.cons_append] at hx3
        injection hx3 with he hx4
        cases m1' with
        | nil =>
          rw [List.nil_append] at hx4
          subst hx4
          exact tryStripMatch_cons_neg qc _ (by decide)
        | cons q m2 =>
          rw [List.cons_append] at hx4
          injection hx4 with hq hx5
          rcases suffix_split hx5 with ⟨w1, w2, hwv, hx6⟩ | ⟨z1, hx6⟩
          · subst hx6
            cases w2 with
            | nil =>
              rw [List.nil_append]
              exact tryStripMatch_cons_neg qc _ (by decide)
            | cons c0 w2' =>
              have hmem2 : ∀ z ∈ w2', z ∈ a.val := fun z hz => by
                rw [hwv]
                exact List.mem_append_right _ (List.mem_cons_of_mem _ hz)
              cases hc0w : isPyWs c0 with
              | false => exact tryStripMatch_cons_neg c0 _ hc0w
              | true =>
                have hmold : ((c0 :: w2') ++ [qc]) ++ R = c0 :: (w2' ++ qc :: R) := by
                  simp
                rw [hmold]
                exact tryStripMatch_val_pos w2' R (fun hh => heval (hmem2 _ hh))
                  (fun hh => hqval (hmem2 _ hh)) c0 hc0w
          · cases z1 with
            | nil =>
              rw [List.nil_append] at hx6
              subst hx6
              exact tryStripMatch_cons_neg qc _ (by decide)
            | cons zz z1' =>
              rw [List.cons_append] at hx6
              injection hx6 with _ hx7
              exact absurd (List.append_eq_nil.1 hx7).2 hne

lemma tryStripMatch_length (c : Char) (rest r : List Char)
    (h : tryStripMatch (c :: rest) = some r) : r.length ≤ rest.length := by
  have hgen : ∀ lit r', matchLit lit (rest.dropWhile isPyWs) = some r' →
      matchValueQ r' = some r → r.length ≤ rest.length := by
    intro lit r' hm hv
    have h1 := matchValueQ_length r' r hv
    have h2 : r'.length ≤ (rest.dropWhile isPyWs).length := by
      have he := (matchLit_iff _ _ _).1 hm
      calc r'.length ≤ lit.length + r'.length := by omega
        _ = (rest.dropWhile isPyWs).length := by rw [he]; simp
    have h3 : (rest.dropWhile isPyWs).length ≤ rest.length :=
      (List.dropWhile_sublist _).length_le
    omega
  rw [tryStripMatch] at h
  by_cases hws : isPyWs c
  · simp only [hws, if_true] at h
    cases hm1 : matchLit "width=\"".data (rest.dropWhile isPyWs) with
    | some r1 =>
      simp only [hm1] at h
      exact hgen _ r1 hm1 h
    | none =>
      simp only [hm1] at h
      cases hm2 : matchLit "height=\"".data (rest.dropWhile isPyWs) with
      | some r1 =>
        simp only [hm2] at h
        exact hgen _ r1 hm2 h
      | none =>
        simp only [hm2] at h
        cases hm3 : matchLit "viewBox=\"".data (rest.dropWhile isPyWs) with
        | some r1 =>
          simp only [hm3] at h
          exact hgen _ r1 hm3 h
        | none =>
          simp only [hm3] at h
          cases hm4 : matchLit "style=\"".data (rest.dropWhile isPyWs) with
          | some r1 =>
            simp only [hm4] at h
            exact hgen _ r1 hm4 h
          | none =>
            simp only [hm4] at h
            exact Option.noConfusion h
  · simp only [hws, if_false] at h
    cases h

lemma subStripGo_spec (fuel : Nat) :
    ∀ l : List Char, l.length ≤ fuel → subStripGo fuel l = subStrip l := by
  induction fuel using Nat.strong_induction_on with
  | _ fuel ih =>
    intro l hl
    cases l with
    | nil => cases fuel <;> rfl
    | cons c rest =>
      cases fuel with
      | zero => simp at hl
      | succ f =>
        have hf : rest.length ≤ f := by simpa using hl
        cases hm : tryStripMatch (c :: rest) with
        | some r =>
          have hr := tryStripMatch_length c rest r hm
          have e1 : subStripGo (f + 1) (c :: rest) = subStripGo f r := by
            simp [subStripGo, hm]
          have e2 : subStrip (c :: rest) = subStripGo rest.length r := by
            show subStripGo (c :: rest).length (c :: rest) = _
            simp [subStripGo, hm]
          rw [e1, e2, ih f (by omega) r (by omega), ih rest.length (by omega) r hr]
        | none =>
          have e1 : subStripGo (f + 1) (c :: rest) = c :: subStripGo f rest := by
            simp [subStripGo, hm]
          have e2 : subStrip (c :: rest) = c :: subStripGo rest.length rest := by
            show subStripGo (c :: rest).length (c :: rest) = _
            simp [subStripGo, hm]
          rw [e1, e2, ih f (by omega) rest hf, ih rest.length (by omega) rest le_rfl]

lemma subStrip_cons_none (c : Char) (rest : List Char)
    (h : tryStripMatch (c :: rest) = none) :
    subStrip (c :: rest) = c :: subStrip rest := by
  show subStripGo (c :: rest).length (c :: rest) = _
  simp only [List.length_cons, subStripGo, h]
  exact congrArg _ (subStripGo_spec rest.length rest le_rfl)

lemma subStrip_eq_of_match (l r : List Char) (h : tryStripMatch l = some r) :
    subStrip l = subStrip r := by
  cases l with
  | nil => cases h
  | cons c rest =>
    show subStripGo (c :: rest).length (c :: rest) = _
    simp only [List.length_cons, subStripGo, h]
    exact subStripGo_spec rest.length r (tryStripMatch_length c rest r h)

lemma subStrip_skip : ∀ x R : List Char,
    (∀ x1 x2 : List Char, x1 ++ x2 = x → x2 ≠ [] → tryStripMatch (x2 ++ R) = none) →
    subStrip (x ++ R) = x ++ subStrip R := by
  intro x
  induction x with
  | nil => intro R _; simp
  | cons c t ih =>
    intro R h
    have hc : tryStripMatch ((c :: t) ++ R) = none := h [] (c :: t) rfl (by simp)
    have hc' : tryStripMatch (c :: (t ++ R)) = none := by simpa using hc
    rw [List.cons_append, subStrip_cons_none c (t ++ R) hc',
      ih R (fun x1 x2 hx hne => h (c :: x1) x2 (by rw [List.cons_append, hx]) hne)]
    rfl

lemma subStrip_renderAttrs : ∀ L : List SvgAttr, (∀ a ∈ L, GoodAttr a) →
    subStrip (renderAttrs L) =
      renderAttrs (L.filter (fun a => ! decide (a.name ∈ stripTargets))) := by
  intro L
  induction L with
  | nil => intro _; rfl
  | cons a L' ih =>
    intro hg
    have hga : GoodAttr a := hg a (List.mem_cons_self _ _)
    have hgL' : ∀ b ∈ L', GoodAttr b := fun b hb => hg b (List.mem_cons_of_mem _ hb)
    have hren : renderAttrs (a :: L') = renderAttr a ++ renderAttrs L' := by
      simp [renderAttrs]
    rw [hren]
    by_cases hmem : a.name ∈ stripTargets
    · rw [subStrip_eq_of_match _ _ (tryStripMatch_target a (renderAttrs L') hga hmem),
        ih hgL', List.filter_cons]
      simp [hmem]
    · rw [subStrip_skip (renderAttr a) (renderAttrs L')
        (tryStripMatch_token_inner a (renderAttrs L') hga hmem), ih hgL', List.filter_cons]
      simp [hmem, renderAttrs]

lemma renderAttrs_append (A B : List SvgAttr) :
    renderAttrs (A ++ B) = renderAttrs A ++ renderAttrs B := by
  simp [renderAttrs]

lemma renderAttrs_inserted (w h : Nat) :
    renderAttrs (insertedAttrs w h) = insertedText w h := by
  have e1 : " width=\"100%\" height=\"100%\" viewBox=\"0 0 ".data =
      (([' '] ++ "width".data ++ ('=' :: qc :: "100%".data) ++ [qc]) ++
       ([' '] ++ "height".data ++ ('=' :: qc :: "100%".data) ++ [qc]) ++
       ([' '] ++ "viewBox".data ++ ('=' :: qc :: "0 0 ".data)) : List Char) := by decide
  have e2 : "\" preserveAspectRatio=\"xMidYMid meet\" style=\"display:block;margin:auto;\"".data =
      (([qc] ++
        ([' '] ++ "preserveAspectRatio".data ++ ('=' :: qc :: "xMidYMid meet".data) ++ [qc]) ++
        ([' '] ++ "style".data ++ ('=' :: qc :: "display:block;margin:auto;".data) ++ [qc]) :
        List Char)) := by decide
  rw [insertedText, e1, e2]
  simp [renderAttrs, renderAttr, insertedAttrs, List.append_assoc]

lemma filtered_count_zero (L : List SvgAttr) (nm : List Char) (hnm : nm ∈ stripTargets) :
    ((L.filter (fun a => ! decide (a.name ∈ stripTargets))).map SvgAttr.name).count nm = 0 := by
  rw [List.count_eq_zero]
  intro hmemm
  rcases List.mem_map.1 hmemm with ⟨b, hbf, hbn⟩
  have hp := (List.mem_filter.1 hbf).2
  have hnotin : b.name ∉ stripTargets := by simpa using hp
  exact hnotin (hbn ▸ hnm)

/-- **C4** (amended) — SVG attribute uniqueness after rewriting, for
canonically written attributes: whenever the `<svg ...>` tag is found and its
attribute text is a list of attributes each written as whitespace, a name,
then `="value"` with no space around `=`, a double-quoted value, and no `"`
or `=` inside the value, the rewritten root tag is again such an attribute
list, in which each of `width`, `height`, `viewBox` and `style` occurs
exactly once. -/
theorem svg_attr_uniqueness (s pre suf : List Char) (L : List SvgAttr) (w h : Nat)
    (hgood : ∀ a ∈ L, GoodAttr a)
    (hfind : findSvgTag s = some (pre, renderAttrs L, suf)) :
    new_tag (renderAttrs L) w h =
      "<svg".data ++
        renderAttrs (L.filter (fun a => ! decide (a.name ∈ stripTargets)) ++
          insertedAttrs w h) ++ ">".data
    ∧ ((L.filter (fun a => ! decide (a.name ∈ stripTargets)) ++ insertedAttrs w h).map
        SvgAttr.name).count "width".data = 1
    ∧ ((L.filter (fun a => ! decide (a.name ∈ stripTargets)) ++ insertedAttrs w h).map
        SvgAttr.name).count "height".data = 1
    ∧ ((L.filter (fun a => ! decide (a.name ∈ stripTargets)) ++ insertedAttrs w h).map
        SvgAttr.name).count "viewBox".data = 1
    ∧ ((L.filter (fun a => ! decide (a.name ∈ stripTargets)) ++ insertedAttrs w h).map
        SvgAttr.name).count "style".data = 1 := by
  have hsub := subStrip_renderAttrs L hgood
  refine ⟨?_, ?_, ?_, ?_, ?_⟩
  · rw [new_tag, hsub, renderAttrs_append, renderAttrs_inserted]
    simp [List.append_assoc]
  all_goals
    rw [List.map_append, List.count_append, filtered_count_zero L _ (by decide),
      show (insertedAttrs w h).map SvgAttr.name =
        ["width".data, "height".data, "viewBox".data, "preserveAspectRatio".data,
          "style".data] from rfl]
    decide

/-- Witness for the amended C4 at a concrete tag
`<svg width="5" fill="red">` with dimensions 10×20. -/
theorem svg_attr_uniqueness_witness :
    new_tag (renderAttrs attrsW) 10 20 =
      "<svg".data ++
        renderAttrs ((attrsW.filter (fun a => ! decide (a.name ∈ stripTargets))) ++
          insertedAttrs 10 20) ++ ">".data
    ∧ (((attrsW.filter (fun a => ! decide (a.name ∈ stripTargets))) ++
          insertedAttrs 10 20).map SvgAttr.name).count "width".data = 1
    ∧ (((attrsW.filter (fun a => ! decide (a.name ∈ stripTargets))) ++
          insertedAttrs 10 20).map SvgAttr.name).count "height".data = 1
    ∧ (((attrsW.filter (fun a => ! decide (a.name ∈ stripTargets))) ++
          insertedAttrs 10 20).map SvgAttr.name).count "viewBox".data = 1
    ∧ (((attrsW.filter (fun a => ! decide (a.name ∈ stripTargets))) ++
          insertedAttrs 10 20).map SvgAttr.name).count "style".data = 1 :=
  svg_attr_uniqueness "<svg width=\"5\" fill=\"red\">x</svg>".data [] "x</svg>".data
    attrsW 10 20 (by decide) (by decide)

/-- **C4** counterexample — the claim as stated (uniqueness "in any quoting
or spacing the SVG format permits") is false: for the input
`<svg width = "5"></svg>` (spaces around `=`, which XML permits), the strip
pattern removes nothing, and the rewritten root tag's attribute text parses
under XML attribute syntax to a name list in which `width` occurs twice. -/
theorem svg_attr_uniqueness_counterexample :
    findSvgTag "<svg width = \"5\"></svg>".data =
      some ([], " width = \"5\"".data, "</svg>".data)
    ∧ subStrip " width = \"5\"".data = " width = \"5\"".data
    ∧ new_tag " width = \"5\"".data 10 20 =
        "<svg".data ++ subStrip " width = \"5\"".data ++ insertedText 10 20 ++ ">".data
    ∧ xmlAttrNames (subStrip " width = \"5\"".data ++ insertedText 10 20) =
        some ["width".data, "width".data, "height".data, "viewBox".data,
          "preserveAspectRatio".data, "style".data]
    ∧ List.count "width".data ["width".data, "width".data, "height".data, "viewBox".data,
        "preserveAspectRatio".data, "style".data] = 2 :=
  ⟨by decide, by decide, rfl, by decide, by decide⟩

/-- Witness for C2: a 90%-black binary raster converges after one pass and the
check does not re-fire. -/
theorem polarity_idempotent_witness :
    ¬ blackCount (normalizePolarity [0, 0, 0, 0, 0, 0, 0, 0, 0, 255]) >
        whiteCount (normalizePolarity [0, 0, 0, 0, 0, 0, 0, 0, 0, 255]) * 2
    ∧ normalizePolarity (normalizePolarity [0, 0, 0, 0, 0, 0, 0, 0, 0, 255]) =
        normalizePolarity [0, 0, 0, 0, 0, 0, 0, 0, 0, 255] :=
  polarity_idempotent [0, 0, 0, 0, 0, 0, 0, 0, 0, 255] (by decide)

end Linolium
